import Mathlib

/-
Verification of the radiation transport and source-coupling engine of this
repository: the implicit matter coupling of radiation.cpp (AddSourceTerms
and FourthPolyRoot) and the transport step of rad_transport.cpp
(CalculateFluxes and FluxDivergence).

The floating-point arithmetic of the source is embedded as exact real
arithmetic over the real numbers.  Each definition below is a direct
transcription of the corresponding source function or loop body; the
source line numbers are recorded in the doc comments.  Definitions carrying
a doc comment starting with "Modelled from the spec" stand for repository
code that is not under src.  All definitions come first, followed by the
lemmas and theorems.
-/

noncomputable section

/-! ## Quartic solver, radiation.cpp lines 490-527

The source solves coef4 * x^4 + x + tconst = 0 exactly via the resolvent
cubic.  The intermediates delta1 (the cubic discriminant), the cubic root
zroot, delta2 and the final root are transcribed one to one; the early
returns of the source become the none branches of an Option valued
function. -/

def quarticDelta1 (coef4 tconst : ℝ) : ℝ :=
  1/4 - 64 * (tconst * tconst * tconst) * coef4 / 27

def quarticZroot0 (d1s : ℝ) : ℝ :=
  if 1e11 < d1s then d1s ^ (-(2:ℝ)/3) / 3
  else (1/2 + d1s) ^ ((1:ℝ)/3) - (-(1/2) + d1s) ^ ((1:ℝ)/3)

def quarticZroot (coef4 z0 : ℝ) : ℝ := z0 * coef4 ^ (-(2:ℝ)/3)

def quarticDelta2 (coef4 z : ℝ) : ℝ := -z + 2 / (coef4 * Real.sqrt z)

def quarticRoot (z d2 : ℝ) : ℝ := 1/2 * (Real.sqrt d2 - Real.sqrt z)

def FourthPolyRoot (coef4 tconst : ℝ) : Option ℝ :=
  let delta1 := quarticDelta1 coef4 tconst
  if delta1 < 0 then none
  else
    let d1s := Real.sqrt delta1
    if d1s < 1/2 then none
    else
      let z0 := quarticZroot0 d1s
      if z0 < 0 then none
      else
        let z := quarticZroot coef4 z0
        let d2 := quarticDelta2 coef4 z
        if d2 < 0 then none
        else
          let rt := quarticRoot z d2
          if rt < 0 then none else some rt

/-! ## Source-coupling step, radiation.cpp lines 39-462 -/

/-- Global parameters of the coupling step. -/
structure RadParams where
  dt : ℝ
  gammaAdi : ℝ
  arad : ℝ
  vSqMax : ℝ

/-- Per-angle data of one cell: solid angle weight, the unit direction
nh_cc_, the geometry factors n0_n_mu_ (indexed by the first slot) and
nmu_(0,...). -/
structure Ang where
  sa : ℝ
  nh : Fin 4 → ℝ
  n0nmu : Fin 4 → ℝ
  nmu0 : ℝ

/-- Per-cell inputs of the coupling step: end-of-stage primitive density and
pressure, the two opacities, the tetrad-frame fluid velocity u_tet_, the
angular grid of the cell and the conserved intensities cons_rad. -/
structure CellIn where
  rho : ℝ
  pgas : ℝ
  kappaA : ℝ
  kappaS : ℝ
  u : Fin 4 → ℝ
  angs : List Ang
  ir : List ℝ

/-- Absorption coefficient k_a = rho * opacity(OPAA), line 189/230. -/
def kA (c : CellIn) : ℝ := c.rho * c.kappaA

/-- Scattering coefficient k_s = rho * opacity(OPAS), line 190/231. -/
def kS (c : CellIn) : ℝ := c.rho * c.kappaS

/-- Gas temperature tt_minus = pgas / rho, line 229. -/
def ttMinus (c : CellIn) : ℝ := c.pgas / c.rho

/-- Gas energy density egas = rho + pgas/(gamma - 1), line 118. -/
def egasOf (P : RadParams) (c : CellIn) : ℝ := c.rho + c.pgas / (P.gammaAdi - 1)

/-- Projection factor u_n = -u0 nh0 + u1 nh1 + u2 nh2 + u3 nh3, line 104. -/
def uN (u : Fin 4 → ℝ) (a : Ang) : ℝ :=
  -(u 0) * a.nh 0 + u 1 * a.nh 1 + u 2 * a.nh 2 + u 3 * a.nh 3

/-- Fluid-frame radiation energy density ee_f, lines 99-110 and 233-248:
sum over angles of (cons_rad / n0_n_mu) * u_n^2 * solid_angle. -/
def eeF (u : Fin 4 → ℝ) (c : CellIn) : ℝ :=
  ((c.angs.zip c.ir).map (fun p => p.2 / p.1.n0nmu 0 * (uN u p.1)^2 * p.1.sa)).sum

/-- Generic tetrad-frame radiation moment, lines 134-157: sum over angles of
(cons_rad / n0_n_mu) * f(angle) * solid_angle. -/
def rrMom (c : CellIn) (f : Ang → ℝ) : ℝ :=
  ((c.angs.zip c.ir).map (fun p => p.2 / p.1.n0nmu 0 * f p.1 * p.1.sa)).sum

/-- Cap of the radiation-frame velocity, lines 163-170.  Returns the
(possibly rescaled) three components and the vrad_sq variable. -/
def vradCap (P : RadParams) (v1 v2 v3 : ℝ) : ℝ × ℝ × ℝ × ℝ :=
  if P.vSqMax < v1^2 + v2^2 + v3^2 then
    (Real.sqrt (P.vSqMax / (v1^2 + v2^2 + v3^2)) * v1,
     Real.sqrt (P.vSqMax / (v1^2 + v2^2 + v3^2)) * v2,
     Real.sqrt (P.vSqMax / (v1^2 + v2^2 + v3^2)) * v3,
     P.vSqMax)
  else (v1, v2, v3, v1^2 + v2^2 + v3^2)

/-- Clamp of the relaxation fractions to the unit interval, lines 214-216. -/
def clamp01 (x : ℝ) : ℝ := min (max x 0) 1

/-- Relaxation fraction with its division guard, lines 208-213. -/
def stepFrac (dm mrad mg : ℝ) : ℝ := if mrad = mg then 0 else dm / (mrad - mg)

/-- Spatial components of the limited fluid velocity, lines 159-219. -/
def velLimitSpatial (P : RadParams) (c : CellIn) : ℝ × ℝ × ℝ :=
  let u := c.u
  let rr00 := rrMom c (fun _ => 1)
  let cap := vradCap P (rrMom c (fun a => a.nh 1) / rr00)
    (rrMom c (fun a => a.nh 2) / rr00) (rrMom c (fun a => a.nh 3) / rr00)
  let urad0 := 1 / Real.sqrt (1 - cap.2.2.2)
  let wgas := egasOf P c + c.pgas
  let gg1 := -(kA c * P.arad * ((c.pgas / c.rho)^2)^2 + kS c * eeF u c) * u 1
    - (kA c + kS c) * (-(u 0) * rrMom c (fun a => a.nh 1)
      + u 1 * rrMom c (fun a => a.nh 1 * a.nh 1)
      + u 2 * rrMom c (fun a => a.nh 1 * a.nh 2)
      + u 3 * rrMom c (fun a => a.nh 1 * a.nh 3))
  let gg2 := -(kA c * P.arad * ((c.pgas / c.rho)^2)^2 + kS c * eeF u c) * u 2
    - (kA c + kS c) * (-(u 0) * rrMom c (fun a => a.nh 2)
      + u 1 * rrMom c (fun a => a.nh 1 * a.nh 2)
      + u 2 * rrMom c (fun a => a.nh 2 * a.nh 2)
      + u 3 * rrMom c (fun a => a.nh 2 * a.nh 3))
  let gg3 := -(kA c * P.arad * ((c.pgas / c.rho)^2)^2 + kS c * eeF u c) * u 3
    - (kA c + kS c) * (-(u 0) * rrMom c (fun a => a.nh 3)
      + u 1 * rrMom c (fun a => a.nh 1 * a.nh 3)
      + u 2 * rrMom c (fun a => a.nh 2 * a.nh 3)
      + u 3 * rrMom c (fun a => a.nh 3 * a.nh 3))
  let f1 := clamp01 (stepFrac (P.dt / u 0 * gg1) (wgas * urad0 * (urad0 * cap.1))
    (wgas * u 0 * u 1))
  let f2 := clamp01 (stepFrac (P.dt / u 0 * gg2) (wgas * urad0 * (urad0 * cap.2.1))
    (wgas * u 0 * u 2))
  let f3 := clamp01 (stepFrac (P.dt / u 0 * gg3) (wgas * urad0 * (urad0 * cap.2.2.1))
    (wgas * u 0 * u 3))
  ((1 - f1) * u 1 + f1 * (urad0 * cap.1),
   (1 - f2) * u 2 + f2 * (urad0 * cap.2.1),
   (1 - f3) * u 3 + f3 * (urad0 * cap.2.2.1))

/-- Limited fluid velocity with its time component restored, lines 217-221. -/
def velLimit (P : RadParams) (c : CellIn) : Fin 4 → ℝ :=
  ![Real.sqrt (1 + (velLimitSpatial P c).1^2 + (velLimitSpatial P c).2.1^2
      + (velLimitSpatial P c).2.2^2),
    (velLimitSpatial P c).1, (velLimitSpatial P c).2.1, (velLimitSpatial P c).2.2]

/-- Velocity used by the temperature and intensity sub-steps: the limiting
runs only when the radiation energy density exceeds the gas one, line 119. -/
def velAdjusted (P : RadParams) (c : CellIn) : Fin 4 → ℝ :=
  if eeF c.u c ≤ egasOf P c then c.u else velLimit P c

/-- The threshold TINY_NUMBER of athena.hpp (not under src); its exact value
never matters below, it only appears inside branch conditions. -/
def tinyNumber : ℝ := 1e-20

/-- Implicit factor var_d = 1 - dt * k_tot * u_n / nmu, line 243. -/
def varD (P : RadParams) (ktot : ℝ) (u : Fin 4 → ℝ) (a : Ang) : ℝ :=
  1 - P.dt * ktot * uN u a / a.nmu0

/-- Accumulated var_a of lines 242-245. -/
def varA (P : RadParams) (c : CellIn) (u : Fin 4 → ℝ) : ℝ :=
  ((c.angs.zip c.ir).map (fun p =>
    p.2 / p.1.n0nmu 0 * (uN u p.1)^2 * p.1.sa / varD P (kA c + kS c) u p.1)).sum

/-- Accumulated var_b of lines 246-249, including the final dt/(4 pi). -/
def varB (P : RadParams) (c : CellIn) (u : Fin 4 → ℝ) : ℝ :=
  P.dt / (4 * Real.pi) *
    ((c.angs.map (fun a => a.sa / (uN u a * a.nmu0 * varD P (kA c + kS c) u a))).sum)

/-- Quartic coefficient coeff_4, line 250. -/
def coeff4 (P : RadParams) (c : CellIn) (u : Fin 4 → ℝ) : ℝ :=
  varB P c u * kA c * P.arad

/-- Linear coefficient coeff_1, line 251. -/
def coeff1 (P : RadParams) (c : CellIn) (u : Fin 4 → ℝ) : ℝ :=
  -c.rho / (P.gammaAdi - 1) * (1 + varB P c u * kS c)

/-- Constant coefficient coeff_0, lines 252-253. -/
def coeff0 (P : RadParams) (c : CellIn) (u : Fin 4 → ℝ) : ℝ :=
  -(coeff1 P c u) * ttMinus c + (1 + varB P c u * kS c) * eeF u c - varA P c u

/-- New gas temperature, lines 255-273: the pair (bad_cell, tt_plus).  The
isnan test of line 267 has no analogue over the exact reals. -/
def tempSolve (P : RadParams) (c : CellIn) (u : Fin 4 → ℝ) : Bool × ℝ :=
  if 0 < kA c then
    if tinyNumber < |coeff4 P c u| ∧ tinyNumber < |coeff1 P c u| then
      match FourthPolyRoot (coeff4 P c u / coeff1 P c u) (coeff0 P c u / coeff1 P c u) with
      | some t => (false, t)
      | none => (true, ttMinus c)
    else if tinyNumber < |coeff4 P c u| then
      (false, Real.sqrt (Real.sqrt (-(coeff0 P c u) / coeff4 P c u)))
    else
      (false, -(coeff0 P c u) / coeff1 P c u)
  else (false, ttMinus c)

/-- New radiation energy density ee_f_plus, lines 275-280; for a bad cell
the source keeps the stale scratch value, which is passed in explicitly. -/
def eeFPlus (P : RadParams) (c : CellIn) (u : Fin 4 → ℝ) (bad : Bool)
    (tt scratch : ℝ) : ℝ :=
  max (if bad then scratch else eeF u c + c.rho / (P.gammaAdi - 1) * (ttMinus c - tt)) 0

/-- Per-angle intensity update, lines 283-305: skipped entirely for a bad
cell, otherwise each conserved intensity is incremented by the implicit
per-angle delta and clamped from above by zero. -/
def intensityUpdate (P : RadParams) (c : CellIn) (u : Fin 4 → ℝ) (bad : Bool)
    (tt eefp : ℝ) : List ℝ :=
  if bad then c.ir
  else (c.angs.zip c.ir).map (fun p =>
    min (p.2 + ((p.2 / p.1.n0nmu 0
        - P.dt / (4 * Real.pi * uN u p.1 * uN u p.1 * uN u p.1 * p.1.nmu0)
          * (kA c * P.arad * (tt^2)^2 + kS c * eefp))
        / (1 - P.dt * (kA c + kS c) * uN u p.1 * p.1.nmu0)
      - p.2 / p.1.n0nmu 0) * p.1.n0nmu 0) 0)

/-- Radiation moments of lines 59-77 and 424-441: sum over angles of
n0_n_mu(n) * cons_rad / n0_n_mu(0) * solid_angle. -/
def radMoments (angs : List Ang) (ir : List ℝ) (n : Fin 4) : ℝ :=
  ((angs.zip ir).map (fun p => p.1.n0nmu n * p.2 / p.1.n0nmu 0 * p.1.sa)).sum

/-- Result of the coupling step on one cell. -/
structure CellOut where
  bad : Bool
  tt : ℝ
  ir : List ℝ
  delta : Fin 4 → ℝ

/-- Full per-cell coupling pipeline without the Eddington correction:
velocity limiting, temperature solve, intensity update, and the moment
difference added to the fluid conserved variables (lines 444-452). -/
def cellStep (P : RadParams) (scratch : ℝ) (c : CellIn) : CellOut :=
  let u := velAdjusted P c
  let bt := tempSolve P c u
  let ir2 := intensityUpdate P c u bt.1 bt.2 (eeFPlus P c u bt.1 bt.2 scratch)
  { bad := bt.1, tt := bt.2, ir := ir2,
    delta := fun n => radMoments c.angs c.ir n - radMoments c.angs ir2 n }

/-- Concrete parameter set used by the witnesses. -/
def parW : RadParams := ⟨1, 2, 1, 1⟩

/-- Concrete angle with solid angle 4 pi. -/
def angW : Ang := ⟨4 * Real.pi, ![1, 0, 0, 0], ![1, 1, 1, 1], 1⟩

/-- Concrete cell on which the quartic branch of the temperature solve runs
and fails. -/
def cellW : CellIn := ⟨1, 1, 1, 0, ![1, 0, 0, 0], [angW], [-(1 / Real.pi)]⟩

/-- Concrete angle with unit solid angle and unit geometry factors. -/
def angU : Ang := ⟨1, ![1, 0, 0, 0], ![1, 1, 1, 1], 1⟩

/-- Zero-opacity cell carrying a positive conserved intensity. -/
def cellPos : CellIn := ⟨1, 1, 0, 0, ![1, 0, 0, 0], [angU], [1]⟩

/-- Zero-opacity cell with a non-positive conserved intensity. -/
def cellNeg : CellIn := ⟨1, 1, 0, 0, ![1, 0, 0, 0], [angU], [-1]⟩

/-! ## Eddington factor correction, radiation.cpp lines 307-422

The correction works on the four azimuthal angles of the collapsed polar
slice; the per-cell data are therefore indexed by Fin 4. -/

/-- Boost from the tetrad frame to the fluid frame, lines 312-325. -/
def tetToFluid (u : Fin 4 → ℝ) : Fin 4 → Fin 4 → ℝ := fun a b =>
  if a = 0 then (if b = 0 then u 0 else -(u b))
  else if b = 0 then -(u a)
  else if a = b then (u a)^2 / (1 + u 0) + 1
  else u a * u b / (1 + u 0)

/-- Fluid-frame direction vector nfluid, lines 326-341. -/
def nfluid (u : Fin 4 → ℝ) (a : Ang) : Fin 4 → ℝ := fun r =>
  ∑ cc : Fin 4, tetToFluid u r cc * a.nh cc

/-- Forward transform ii_to_moment_, lines 342-345: rows are the moments
nfluid0^2, nfluid0 nfluid1, nfluid0 nfluid2, nfluid1 nfluid2; columns are
the four azimuthal angles. -/
def iiToMoment (u : Fin 4 → ℝ) (angs : Fin 4 → Ang) : Fin 4 → Fin 4 → ℝ :=
  fun nmom nii =>
    if nmom = 0 then nfluid u (angs nii) 0 * nfluid u (angs nii) 0
    else if nmom = 1 then nfluid u (angs nii) 0 * nfluid u (angs nii) 1
    else if nmom = 2 then nfluid u (angs nii) 0 * nfluid u (angs nii) 2
    else nfluid u (angs nii) 1 * nfluid u (angs nii) 2

/-- Moments edd_moments_, lines 350-366: only the first three rows are
accumulated, the fourth is left at zero. -/
def eddMoments (M : Fin 4 → Fin 4 → ℝ) (angs : Fin 4 → Ang) (cr : Fin 4 → ℝ) :
    Fin 4 → ℝ := fun nmom =>
  if nmom = 3 then 0
  else ∑ nii : Fin 4, M nmom nii * cr nii / (angs nii).n0nmu 0 * (angs nii).sa

/-- One pivot step of the Gauss-Jordan elimination of lines 379-395:
normalize row aa of both matrices by the diagonal pivot, then subtract the
pivot row from every other row of both matrices. -/
def gjPivot (AB : (Fin 4 → Fin 4 → ℝ) × (Fin 4 → Fin 4 → ℝ)) (aa : Fin 4) :
    (Fin 4 → Fin 4 → ℝ) × (Fin 4 → Fin 4 → ℝ) :=
  let p := AB.1 aa aa
  let A1 : Fin 4 → Fin 4 → ℝ := fun a b => if a = aa then AB.1 a b / p else AB.1 a b
  let B1 : Fin 4 → Fin 4 → ℝ := fun a b => if a = aa then AB.2 a b / p else AB.2 a b
  (fun a b => if a = aa then A1 a b else A1 a b - A1 a aa * A1 aa b,
   fun a b => if a = aa then B1 a b else B1 a b - A1 a aa * B1 aa b)

/-- The identity matrix that initializes moment_to_ii_, lines 370-378. -/
def idMat4 : Fin 4 → Fin 4 → ℝ := fun a b => if a = b then 1 else 0

/-- Gauss-Jordan elimination over the four diagonal pivots, lines 379-395. -/
def gjInv (M : Fin 4 → Fin 4 → ℝ) :
    (Fin 4 → Fin 4 → ℝ) × (Fin 4 → Fin 4 → ℝ) :=
  gjPivot (gjPivot (gjPivot (gjPivot (M, idMat4) 0) 1) 2) 3

/-- Application of the Eddington correction to the conserved intensities,
lines 399-422: zero the slice, accumulate moment_to_ii_ times the moments,
rescale by n0_n_mu_ over the solid angle, and clamp by min with zero. -/
def eddFix (u : Fin 4 → ℝ) (angs : Fin 4 → Ang) (cr : Fin 4 → ℝ) : Fin 4 → ℝ :=
  fun nii =>
    min ((∑ nmom : Fin 4, (gjInv (iiToMoment u angs)).2 nii nmom
        * eddMoments (iiToMoment u angs) angs cr nmom)
      * (angs nii).n0nmu 0 / (angs nii).sa) 0

/-- Concrete velocity (fluid at rest in the tetrad frame). -/
def uE : Fin 4 → ℝ := ![1, 0, 0, 0]

/-- Concrete azimuthal angle (unit weight and geometry factors). -/
def angE (n1 n2 : ℝ) : Ang := ⟨1, ![1, n1, n2, 0], ![1, 1, 1, 1], 1⟩

/-- Concrete four-angle slice for the Eddington correction. -/
def angsE : Fin 4 → Ang := ![angE 1 0, angE 0 1, angE 1 1, angE 2 0]

/-- The forward transform of the concrete slice. -/
def matE : Fin 4 → Fin 4 → ℝ :=
  ![![1, 1, 1, 1], ![1, 0, 1, 2], ![0, 1, 1, 0], ![0, 0, 1, 0]]

/-- The inverse produced by the Gauss-Jordan elimination on the concrete
slice. -/
def matEinv : Fin 4 → Fin 4 → ℝ :=
  ![![2, -1, -2, 1], ![0, 0, 1, -1], ![0, 0, 0, 1], ![-1, 1, 1, -1]]

/-- Intermediate matrices of the Gauss-Jordan elimination on matE. -/
def matE1A : Fin 4 → Fin 4 → ℝ :=
  ![![1, 1, 1, 1], ![0, -1, 0, 1], ![0, 1, 1, 0], ![0, 0, 1, 0]]

def matE1B : Fin 4 → Fin 4 → ℝ :=
  ![![1, 0, 0, 0], ![-1, 1, 0, 0], ![0, 0, 1, 0], ![0, 0, 0, 1]]

def matE2A : Fin 4 → Fin 4 → ℝ :=
  ![![1, 0, 1, 2], ![0, 1, 0, -1], ![0, 0, 1, 1], ![0, 0, 1, 0]]

def matE2B : Fin 4 → Fin 4 → ℝ :=
  ![![0, 1, 0, 0], ![1, -1, 0, 0], ![-1, 1, 1, 0], ![0, 0, 0, 1]]

def matE3A : Fin 4 → Fin 4 → ℝ :=
  ![![1, 0, 0, 1], ![0, 1, 0, -1], ![0, 0, 1, 1], ![0, 0, 0, -1]]

def matE3B : Fin 4 → Fin 4 → ℝ :=
  ![![1, 0, -1, 0], ![1, -1, 0, 0], ![-1, 1, 1, 0], ![1, -1, -1, 1]]

def matE4A : Fin 4 → Fin 4 → ℝ :=
  ![![1, 0, 0, 0], ![0, 1, 0, 0], ![0, 0, 1, 0], ![0, 0, 0, 1]]

/-- All-minus-one intensities: the correction leaves the clamp inactive. -/
def crW4 : Fin 4 → ℝ := ![-1, -1, -1, -1]

/-- Intensities concentrated on one angle: the correction overshoots and the
clamp fires. -/
def crC4 : Fin 4 → ℝ := ![0, 0, -1, 0]

/-- Zero-opacity cell with intensity -5. -/
def cellm5 : CellIn := ⟨1, 1, 0, 0, ![1, 0, 0, 0], [angU], [-5]⟩

/-! ## Transport step, rad_transport.cpp

CalculateFluxes (lines 45-221) and FluxDivergence (lines 224-323) work on
four-index arrays ir(k,j,i,n); arrays are embedded as functions of four
natural indices, geometry and coordinates as external providers. -/

/-- Mesh-block index bounds and sizes. -/
structure TransGrid where
  is : ℕ
  ie : ℕ
  js : ℕ
  je : ℕ
  ks : ℕ
  ke : ℕ
  nx2 : ℕ
  nx3 : ℕ
  nfa : ℕ

/-- Face areas and cell volumes supplied by the geometry provider. -/
structure TransGeom where
  x1area : ℕ → ℕ → ℕ → ℝ
  x2area : ℕ → ℕ → ℕ → ℝ
  x3area : ℕ → ℕ → ℕ → ℝ
  vol : ℕ → ℕ → ℕ → ℝ

/-- Face and center coordinates supplied by the geometry provider. -/
structure TransCoords where
  x1f : ℕ → ℝ
  x1v : ℕ → ℝ
  x2f : ℕ → ℝ
  x2v : ℕ → ℝ
  x3f : ℕ → ℝ
  x3v : ℕ → ℝ

/-- Substep time increment, lines 58-62 and 235-239: half the mesh step for
the predictor substep, the full step otherwise. -/
def substepDt (step : ℕ) (meshDt : ℝ) : ℝ :=
  if step = 1 then 1/2 * meshDt else meshDt

/-- Face velocity in the x1 direction, lines 102-116: the reduced speed
times the linear interpolation of the direction cosines of the two
neighboring cell centers. -/
def faceVel1 (co : TransCoords) (rc : ℝ) (mu : Fin 3 → ℕ → ℕ → ℕ → ℕ → ℝ)
    (k j i n : ℕ) : ℝ :=
  let dxl := co.x1f i - co.x1v (i-1)
  let dxr := co.x1v i - co.x1f i
  rc * (dxr / (dxl + dxr) * mu 0 k j (i-1) n + dxl / (dxl + dxr) * mu 0 k j i n)

/-- Face velocity in the x2 direction, lines 142-156. -/
def faceVel2 (co : TransCoords) (rc : ℝ) (mu : Fin 3 → ℕ → ℕ → ℕ → ℕ → ℝ)
    (k j i n : ℕ) : ℝ :=
  let dxl := co.x2f j - co.x2v (j-1)
  let dxr := co.x2v j - co.x2f j
  rc * (dxr / (dxl + dxr) * mu 1 k (j-1) i n + dxl / (dxl + dxr) * mu 1 k j i n)

/-- Face velocity in the x3 direction, lines 183-197. -/
def faceVel3 (co : TransCoords) (rc : ℝ) (mu : Fin 3 → ℕ → ℕ → ℕ → ℕ → ℝ)
    (k j i n : ℕ) : ℝ :=
  let dxl := co.x3f k - co.x3v (k-1)
  let dxr := co.x3v k - co.x3f k
  rc * (dxr / (dxl + dxr) * mu 2 (k-1) j i n + dxl / (dxl + dxr) * mu 2 k j i n)

/-- Modelled from the spec: the first-order piecewise-constant upwind flux
computed by FirstOrderFluxX1/X2/X3, whose source file is not under src.
The donor cell is the left neighbor for a positive face velocity and the
right neighbor otherwise. -/
def firstOrderUpwind (vel iL iR : ℝ) : ℝ := if 0 < vel then vel * iL else vel * iR

/-- Modelled from the spec: the van Leer limited slope of the higher-order
reconstruction used by SecondOrderFluxX1/X2/X3 (source not under src); it
vanishes unless the adjacent differences agree in sign. -/
def limitedSlope (a b : ℝ) : ℝ := if 0 < a * b then 2*a*b/(a+b) else 0

/-- Modelled from the spec: the slope-limited second-order upwind flux of
SecondOrderFluxX1/X2/X3 (source not under src). -/
def secondOrderUpwind (vel iLL iL iR iRR : ℝ) : ℝ :=
  if 0 < vel then vel * (iL + limitedSlope (iL - iLL) (iR - iL) / 2)
  else vel * (iR - limitedSlope (iR - iL) (iRR - iR) / 2)

/-- Per-face flux in the x1 direction: first order on the predictor substep,
second order otherwise (lines 118-122). -/
def fluxKernelX1 (step : ℕ) (t : ℕ → ℕ → ℕ → ℕ → ℝ) (vel : ℝ)
    (k j i n : ℕ) : ℝ :=
  if step = 1 then firstOrderUpwind vel (t k j (i-1) n) (t k j i n)
  else secondOrderUpwind vel (t k j (i-2) n) (t k j (i-1) n) (t k j i n) (t k j (i+1) n)

/-- Per-face flux in the x2 direction (lines 158-162). -/
def fluxKernelX2 (step : ℕ) (t : ℕ → ℕ → ℕ → ℕ → ℝ) (vel : ℝ)
    (k j i n : ℕ) : ℝ :=
  if step = 1 then firstOrderUpwind vel (t k (j-1) i n) (t k j i n)
  else secondOrderUpwind vel (t k (j-2) i n) (t k (j-1) i n) (t k j i n) (t k (j+1) i n)

/-- Per-face flux in the x3 direction (lines 199-203). -/
def fluxKernelX3 (step : ℕ) (t : ℕ → ℕ → ℕ → ℕ → ℝ) (vel : ℝ)
    (k j i n : ℕ) : ℝ :=
  if step = 1 then firstOrderUpwind vel (t (k-1) j i n) (t k j i n)
  else secondOrderUpwind vel (t (k-2) j i n) (t (k-1) j i n) (t k j i n) (t (k+1) j i n)

/-- The arrays touched by the transport step: the intensity field, the three
face-flux arrays and the thread-local scratch copy temp_i1. -/
structure FluxState where
  ir : ℕ → ℕ → ℕ → ℕ → ℝ
  f1 : ℕ → ℕ → ℕ → ℕ → ℝ
  f2 : ℕ → ℕ → ℕ → ℕ → ℝ
  f3 : ℕ → ℕ → ℕ → ℕ → ℝ
  temp1 : ℕ → ℕ → ℕ → ℕ → ℝ

/-- x1 flux storage, lines 98-133: faces k in ks..ke, j in js..je,
i in is..ie+1, n below n_fre_ang are overwritten, the rest keep their
previous values. -/
def calcFluxX1 (g : TransGrid) (co : TransCoords) (rc : ℝ)
    (mu : Fin 3 → ℕ → ℕ → ℕ → ℕ → ℝ) (step : ℕ)
    (t old : ℕ → ℕ → ℕ → ℕ → ℝ) : ℕ → ℕ → ℕ → ℕ → ℝ := fun k j i n =>
  if g.ks ≤ k ∧ k ≤ g.ke ∧ g.js ≤ j ∧ j ≤ g.je ∧ g.is ≤ i ∧ i ≤ g.ie + 1 ∧ n < g.nfa then
    fluxKernelX1 step t (faceVel1 co rc mu k j i n) k j i n
  else old k j i n

/-- x2 flux storage, lines 136-174. -/
def calcFluxX2 (g : TransGrid) (co : TransCoords) (rc : ℝ)
    (mu : Fin 3 → ℕ → ℕ → ℕ → ℕ → ℝ) (step : ℕ)
    (t old : ℕ → ℕ → ℕ → ℕ → ℝ) : ℕ → ℕ → ℕ → ℕ → ℝ := fun k j i n =>
  if g.ks ≤ k ∧ k ≤ g.ke ∧ g.js ≤ j ∧ j ≤ g.je + 1 ∧ g.is ≤ i ∧ i ≤ g.ie ∧ n < g.nfa then
    fluxKernelX2 step t (faceVel2 co rc mu k j i n) k j i n
  else old k j i n

/-- x3 flux storage, lines 177-215. -/
def calcFluxX3 (g : TransGrid) (co : TransCoords) (rc : ℝ)
    (mu : Fin 3 → ℕ → ℕ → ℕ → ℕ → ℝ) (step : ℕ)
    (t old : ℕ → ℕ → ℕ → ℕ → ℝ) : ℕ → ℕ → ℕ → ℕ → ℝ := fun k j i n =>
  if g.ks ≤ k ∧ k ≤ g.ke + 1 ∧ g.js ≤ j ∧ j ≤ g.je ∧ g.is ≤ i ∧ i ≤ g.ie ∧ n < g.nfa then
    fluxKernelX3 step t (faceVel3 co rc mu k j i n) k j i n
  else old k j i n

/-- RadIntegrator::CalculateFluxes, lines 45-221: copies the intensity field
into the scratch buffer, then writes the face-flux arrays; the x2 and x3
arrays only when the block extends in that direction.  The intensity field
itself is only read. -/
def calculateFluxes (g : TransGrid) (co : TransCoords) (rc : ℝ)
    (mu : Fin 3 → ℕ → ℕ → ℕ → ℕ → ℝ) (step : ℕ) (s : FluxState) : FluxState :=
  { ir := s.ir,
    temp1 := s.ir,
    f1 := calcFluxX1 g co rc mu step s.ir s.f1,
    f2 := if 1 < g.nx2 then calcFluxX2 g co rc mu step s.ir s.f2 else s.f2,
    f3 := if 1 < g.nx3 then calcFluxX3 g co rc mu step s.ir s.f3 else s.f3 }

/-- RadIntegrator::FluxDivergence, lines 224-323: subtract dt times the
face-area weighted flux differences over the cell volume, dispatching on
the block dimensionality; cells outside the loop ranges are untouched. -/
def fluxDivUpdate (g : TransGrid) (geo : TransGeom) (dt : ℝ)
    (f1 f2 f3 ir : ℕ → ℕ → ℕ → ℕ → ℝ) : ℕ → ℕ → ℕ → ℕ → ℝ := fun k j i n =>
  if 1 < g.nx3 then
    if g.ks ≤ k ∧ k ≤ g.ke ∧ g.js ≤ j ∧ j ≤ g.je ∧ g.is ≤ i ∧ i ≤ g.ie ∧ n < g.nfa then
      ir k j i n - dt * (geo.x1area k j (i+1) * f1 k j (i+1) n
        - geo.x1area k j i * f1 k j i n
        + geo.x2area k (j+1) i * f2 k (j+1) i n
        - geo.x2area k j i * f2 k j i n
        + geo.x3area (k+1) j i * f3 (k+1) j i n
        - geo.x3area k j i * f3 k j i n) / geo.vol k j i
    else ir k j i n
  else if 1 < g.nx2 then
    if k = g.ks ∧ g.js ≤ j ∧ j ≤ g.je ∧ g.is ≤ i ∧ i ≤ g.ie ∧ n < g.nfa then
      ir k j i n - dt * (geo.x1area k j (i+1) * f1 k j (i+1) n
        - geo.x1area k j i * f1 k j i n
        + geo.x2area k (j+1) i * f2 k (j+1) i n
        - geo.x2area k j i * f2 k j i n) / geo.vol k j i
    else ir k j i n
  else
    if k = g.ks ∧ j = g.js ∧ g.is ≤ i ∧ i ≤ g.ie ∧ n < g.nfa then
      ir k j i n - dt * (geo.x1area k j (i+1) * f1 k j (i+1) n
        - geo.x1area k j i * f1 k j i n) / geo.vol k j i
    else ir k j i n

/-- One-dimensional one-cell grid used by the transport witnesses. -/
def gridW : TransGrid := ⟨1, 1, 0, 0, 0, 0, 1, 1, 1⟩

/-- Unit geometry. -/
def geomW : TransGeom := ⟨fun _ _ _ => 1, fun _ _ _ => 1, fun _ _ _ => 1, fun _ _ _ => 1⟩

/-- Uniform coordinates for the transport witness. -/
def coordsW : TransCoords :=
  ⟨fun i => (i : ℝ) - 1/2, fun i => (i : ℝ), fun j => (j : ℝ) - 1/2, fun j => (j : ℝ),
   fun k => (k : ℝ) - 1/2, fun k => (k : ℝ)⟩

/-- Uniform intensity 5 and stale flux buffers. -/
def stateW : FluxState :=
  ⟨fun _ _ _ _ => 5, fun _ _ _ _ => 0, fun _ _ _ _ => 0, fun _ _ _ _ => 0,
   fun _ _ _ _ => 0⟩

lemma FourthPolyRoot_eq_some (a c : ℝ)
    (h1 : ¬ quarticDelta1 a c < 0)
    (h2 : ¬ Real.sqrt (quarticDelta1 a c) < 1/2)
    (h3 : ¬ quarticZroot0 (Real.sqrt (quarticDelta1 a c)) < 0)
    (h4 : ¬ quarticDelta2 a
      (quarticZroot a (quarticZroot0 (Real.sqrt (quarticDelta1 a c)))) < 0)
    (h5 : ¬ quarticRoot
      (quarticZroot a (quarticZroot0 (Real.sqrt (quarticDelta1 a c))))
      (quarticDelta2 a
        (quarticZroot a (quarticZroot0 (Real.sqrt (quarticDelta1 a c))))) < 0) :
    FourthPolyRoot a c = some (quarticRoot
      (quarticZroot a (quarticZroot0 (Real.sqrt (quarticDelta1 a c))))
      (quarticDelta2 a
        (quarticZroot a (quarticZroot0 (Real.sqrt (quarticDelta1 a c)))))) := by
  simp only [FourthPolyRoot, if_neg h1, if_neg h2, if_neg h3, if_neg h4, if_neg h5]

lemma cube_rpow_third (x : ℝ) (hx : 0 ≤ x) : (x ^ ((1:ℝ)/3)) ^ 3 = x := by
  rw [← Real.rpow_natCast (x ^ ((1:ℝ)/3)) 3, ← Real.rpow_mul hx]
  norm_num

/-- First half of the algebraic core for the run on coef4 = 1, tconst = -2:
positivity and size bounds for the cubic root A - B and the intermediate
delta2, with r standing for the square root of A - B. -/
lemma quartic_core1 (A B r : ℝ)
    (hAB3 : A^3 - B^3 = 1) (hABmul : A*B = 8/3) (hBA : B ≤ A)
    (hrsq : r^2 = A - B) (hrnn : 0 ≤ r) :
    0 < A - B ∧ A - B ≤ 1/8 ∧ 0 ≤ -(A - B) + 2/r := by
  have hznn : (0:ℝ) ≤ A - B := by linarith
  have hz3 : (A - B)^3 = 1 - 8*(A - B) := by
    linear_combination hAB3 - 3*(A - B)*hABmul
  have hzpos : 0 < A - B := by
    rcases eq_or_lt_of_le hznn with h | h
    · exfalso
      rw [← h] at hz3
      norm_num at hz3
    · exact h
  have hzle : A - B ≤ 1/8 := by nlinarith [hz3, pow_nonneg hznn 3]
  have hrpos : 0 < r := by
    rcases eq_or_lt_of_le hrnn with h | h
    · exfalso
      rw [← h] at hrsq
      norm_num at hrsq
      linarith
    · exact h
  have hrle1 : r ≤ 1 := by nlinarith [hrsq, hzle, sq_nonneg (r - 1)]
  have hd2nn : (0:ℝ) ≤ -(A - B) + 2/r := by
    have hzr : (A - B) * r ≤ 2 := by nlinarith [hzle, hrle1, hzpos, hrpos]
    have h1 : -(A - B) + 2 / r = (2 - (A - B)*r) / r := by
      field_simp
      ring
    rw [h1]
    exact div_nonneg (by linarith) (le_of_lt hrpos)
  exact ⟨hzpos, hzle, hd2nn⟩

set_option maxHeartbeats 1000000 in
/-- Second half of the algebraic core: with s the square root of delta2,
the returned root (s - r)/2 is non-negative and equals 1 exactly. -/
lemma quartic_core2 (A B r s : ℝ)
    (hAB3 : A^3 - B^3 = 1) (hABmul : A*B = 8/3) (hBA : B ≤ A)
    (hrsq : r^2 = A - B) (hrnn : 0 ≤ r)
    (hssq : s^2 = -(A - B) + 2/r) (hsnn : 0 ≤ s) :
    r ≤ s ∧ 1/2*(s - r) = 1 := by
  obtain ⟨hzpos, hzle, hd2nn⟩ := quartic_core1 A B r hAB3 hABmul hBA hrsq hrnn
  have hrpos : 0 < r := by
    rcases eq_or_lt_of_le hrnn with h | h
    · exfalso
      rw [← h] at hrsq
      norm_num at hrsq
      linarith
    · exact h
  have hrne : r ≠ 0 := ne_of_gt hrpos
  have hrle1 : r ≤ 1 := by nlinarith [hrsq, hzle, sq_nonneg (r - 1)]
  have hz3 : (A - B)^3 = 1 - 8*(A - B) := by
    linear_combination hAB3 - 3*(A - B)*hABmul
  have hsge : r ≤ s := by
    have hsq : r^2 ≤ s^2 := by
      rw [hrsq, hssq]
      have h1 : (A - B) * r ≤ 1 := by nlinarith [hzle, hrle1, hzpos, hrpos]
      have h2 : 2 * (A - B) ≤ 2 / r := by
        rw [le_div_iff₀ hrpos]
        nlinarith [h1]
      linarith [hzpos]
    nlinarith [hsq, hsnn, hrpos]
  have hs2r : s^2 * r = 2 - r^3 := by
    have h1 : s^2 = -(r^2) + 2/r := by rw [hssq, hrsq]
    rw [h1]
    field_simp
    ring
  have hr6 : r^6 = 1 - 8*r^2 := by
    have h1 : r^6 = (r^2)^3 := by ring
    rw [h1, hrsq]
    exact hz3
  have hkey : r^2 * ((1/2*(s - r))^4 + 1/2*(s - r) - 2) = 0 := by
    linear_combination ((s^2*r + 2 + 5*r^3 - 4*s*r^2)/16) * hs2r - (1/4) * hr6
  have hfac : (1/2*(s - r))^4 + 1/2*(s - r) - 2 = 0 := by
    rcases mul_eq_zero.mp hkey with h | h
    · exact absurd h (pow_ne_zero 2 hrne)
    · exact h
  have hrootnn : (0:ℝ) ≤ 1/2*(s - r) := by linarith
  have hone : 1/2*(s - r) = 1 := by
    have h2 : (1/2*(s - r) - 1) * ((1/2*(s - r))^3 + (1/2*(s - r))^2 + 1/2*(s - r) + 2) = 0 := by
      linear_combination hfac
    rcases mul_eq_zero.mp h2 with h | h
    · linarith
    · nlinarith [pow_nonneg hrootnn 3, pow_nonneg hrootnn 2, hrootnn]
  exact ⟨hsge, hone⟩

set_option maxHeartbeats 1000000 in
/-- The concrete run of the quartic solver on coef4 = 1, tconst = -2:
every guard passes and the returned root is exactly 1. -/
lemma FourthPolyRoot_one_neg_two : FourthPolyRoot 1 (-2) = some 1 := by
  have e0 : quarticDelta1 1 (-2) = 2075/108 := by
    unfold quarticDelta1; norm_num
  obtain ⟨d, hd⟩ : ∃ x, Real.sqrt (2075/108) = x := ⟨_, rfl⟩
  have hdnn : 0 ≤ d := hd ▸ Real.sqrt_nonneg _
  have hdsq : d^2 = 2075/108 := by rw [← hd]; exact Real.sq_sqrt (by norm_num)
  have hdhalf : 1/2 < d := by nlinarith [hdsq, hdnn]
  have hdle : ¬ (1e11 < d) := by
    intro h
    have h2 : (1e22:ℝ) < d^2 := by nlinarith [h, hdnn]
    rw [hdsq] at h2
    norm_num at h2
  have eSqrt : Real.sqrt (quarticDelta1 1 (-2)) = d := by rw [e0, hd]
  have hAnn0 : (0:ℝ) ≤ 1/2 + d := by linarith
  have hBnn0 : (0:ℝ) ≤ -(1/2) + d := by linarith
  obtain ⟨A, hA⟩ : ∃ x, (1/2 + d) ^ ((1:ℝ)/3) = x := ⟨_, rfl⟩
  obtain ⟨B, hB⟩ : ∃ x, (-(1/2) + d) ^ ((1:ℝ)/3) = x := ⟨_, rfl⟩
  have hA3 : A^3 = 1/2 + d := by rw [← hA]; exact cube_rpow_third _ hAnn0
  have hB3 : B^3 = -(1/2) + d := by rw [← hB]; exact cube_rpow_third _ hBnn0
  have hAB3 : A^3 - B^3 = 1 := by rw [hA3, hB3]; ring
  have hABmul : A * B = 8/3 := by
    rw [← hA, ← hB, ← Real.mul_rpow hAnn0 hBnn0]
    have h1 : (1/2 + d) * (-(1/2) + d) = 512/27 := by nlinarith [hdsq]
    have h2 : ((512:ℝ)/27) = ((8:ℝ)/3) ^ (3:ℕ) := by norm_num
    rw [h1, h2, ← Real.rpow_natCast ((8:ℝ)/3) 3,
      ← Real.rpow_mul (by norm_num : (0:ℝ) ≤ 8/3)]
    norm_num
  have hBA : B ≤ A := by
    rw [← hA, ← hB]
    exact Real.rpow_le_rpow hBnn0 (by linarith) (by norm_num)
  obtain ⟨r, hr⟩ : ∃ x, Real.sqrt (A - B) = x := ⟨_, rfl⟩
  have hznn : (0:ℝ) ≤ A - B := by linarith
  have hrsq : r^2 = A - B := by rw [← hr]; exact Real.sq_sqrt hznn
  have hrnn : 0 ≤ r := hr ▸ Real.sqrt_nonneg _
  obtain ⟨hzpos, hzle, hd2nn⟩ := quartic_core1 A B r hAB3 hABmul hBA hrsq hrnn
  obtain ⟨s, hs⟩ : ∃ x, Real.sqrt (-(A - B) + 2/r) = x := ⟨_, rfl⟩
  have hssq : s^2 = -(A - B) + 2/r := by rw [← hs]; exact Real.sq_sqrt hd2nn
  have hsnn : 0 ≤ s := hs ▸ Real.sqrt_nonneg _
  obtain ⟨hsge, hone⟩ := quartic_core2 A B r s hAB3 hABmul hBA hrsq hrnn hssq hsnn
  -- evaluation of the solver intermediates
  have eZ0 : quarticZroot0 (Real.sqrt (quarticDelta1 1 (-2))) = A - B := by
    rw [eSqrt, quarticZroot0, if_neg hdle, hA, hB]
  have eZ : quarticZroot 1 (quarticZroot0 (Real.sqrt (quarticDelta1 1 (-2)))) = A - B := by
    rw [eZ0, quarticZroot, Real.one_rpow, mul_one]
  have eD2 : quarticDelta2 1
      (quarticZroot 1 (quarticZroot0 (Real.sqrt (quarticDelta1 1 (-2)))))
      = -(A - B) + 2/r := by
    rw [quarticDelta2, eZ, one_mul, hr]
  have eRoot : quarticRoot
      (quarticZroot 1 (quarticZroot0 (Real.sqrt (quarticDelta1 1 (-2)))))
      (quarticDelta2 1 (quarticZroot 1 (quarticZroot0 (Real.sqrt (quarticDelta1 1 (-2))))))
      = 1/2 * (s - r) := by
    rw [quarticRoot, eD2, eZ, hr, hs]
  have h1g : ¬ quarticDelta1 1 (-2) < 0 := by rw [e0]; norm_num
  have h2g : ¬ Real.sqrt (quarticDelta1 1 (-2)) < 1/2 := by
    rw [eSqrt]
    exact not_lt.mpr (le_of_lt hdhalf)
  have h3g : ¬ quarticZroot0 (Real.sqrt (quarticDelta1 1 (-2))) < 0 := by
    rw [eZ0]
    exact not_lt.mpr hznn
  have h4g : ¬ quarticDelta2 1
      (quarticZroot 1 (quarticZroot0 (Real.sqrt (quarticDelta1 1 (-2))))) < 0 := by
    rw [eD2]
    exact not_lt.mpr hd2nn
  have h5g : ¬ quarticRoot
      (quarticZroot 1 (quarticZroot0 (Real.sqrt (quarticDelta1 1 (-2)))))
      (quarticDelta2 1 (quarticZroot 1 (quarticZroot0 (Real.sqrt (quarticDelta1 1 (-2)))))) < 0 := by
    rw [eRoot]
    have : (0:ℝ) ≤ 1/2 * (s - r) := by linarith
    exact not_lt.mpr this
  rw [FourthPolyRoot_eq_some 1 (-2) h1g h2g h3g h4g h5g, eRoot, hone]

/-- Claim C1: for the input coef4 = 1, tconst = -2, for which a real
non-negative root exists, FourthPolyRoot succeeds and returns exactly the
root 1 of x^4 + x - 2 = 0 (hence within relative tolerance 1e-8); whenever
the cubic discriminant delta1 is negative, or its square root is below 1/2,
or the intermediate zroot or delta2 or the resulting root is negative, it
returns failure; and a success never carries a negative root. -/
theorem C1_FourthPolyRoot_spec :
    (FourthPolyRoot 1 (-2) = some 1 ∧ (1:ℝ) * 1^4 + 1 + (-2) = 0) ∧
    (∀ a c : ℝ, quarticDelta1 a c < 0 → FourthPolyRoot a c = none) ∧
    (∀ a c : ℝ, Real.sqrt (quarticDelta1 a c) < 1/2 → FourthPolyRoot a c = none) ∧
    (∀ a c : ℝ,
      quarticZroot0 (Real.sqrt (quarticDelta1 a c)) < 0 → FourthPolyRoot a c = none) ∧
    (∀ a c : ℝ,
      quarticDelta2 a (quarticZroot a (quarticZroot0 (Real.sqrt (quarticDelta1 a c)))) < 0 →
      FourthPolyRoot a c = none) ∧
    (∀ a c : ℝ,
      quarticRoot (quarticZroot a (quarticZroot0 (Real.sqrt (quarticDelta1 a c))))
        (quarticDelta2 a
          (quarticZroot a (quarticZroot0 (Real.sqrt (quarticDelta1 a c))))) < 0 →
      FourthPolyRoot a c = none) ∧
    (∀ a c r : ℝ, FourthPolyRoot a c = some r → 0 ≤ r) := by
  refine ⟨⟨FourthPolyRoot_one_neg_two, by norm_num⟩, ?_, ?_, ?_, ?_, ?_, ?_⟩
  · intro a c h
    simp only [FourthPolyRoot, if_pos h]
  · intro a c h
    simp only [FourthPolyRoot]
    split_ifs <;> rfl
  · intro a c h
    simp only [FourthPolyRoot]
    split_ifs <;> rfl
  · intro a c h
    simp only [FourthPolyRoot]
    split_ifs <;> rfl
  · intro a c h
    simp only [FourthPolyRoot]
    split_ifs <;> rfl
  · intro a c r h
    simp only [FourthPolyRoot] at h
    split_ifs at h with h1 h2 h3 h4 h5
    simp only [Option.some.injEq] at h
    subst h
    exact not_lt.mp h5

/-- Witness for claim C1 at concrete inputs. -/
theorem C1_FourthPolyRoot_spec_witness :
    FourthPolyRoot 1 1 = none ∧ FourthPolyRoot 1 (-2) = some 1 :=
  ⟨C1_FourthPolyRoot_spec.2.1 1 1 (by norm_num [quarticDelta1]),
   C1_FourthPolyRoot_spec.1.1⟩

/-- Mapping a function over a zip returns the second list when the function
is pointwise the second projection and the lengths agree. -/
lemma map_zip_eq_right (f : Ang × ℝ → ℝ) :
    ∀ (l1 : List Ang) (l2 : List ℝ), l1.length = l2.length →
    (∀ p ∈ l1.zip l2, f p = p.2) → (l1.zip l2).map f = l2 := by
  intro l1
  induction l1 with
  | nil =>
    intro l2 h _
    have : l2 = [] := by
      cases l2 with
      | nil => rfl
      | cons b t => simp at h
    simp [this]
  | cons a t ih =>
    intro l2 h hf
    cases l2 with
    | nil => simp at h
    | cons b t2 =>
      simp only [List.zip_cons_cons, List.map_cons]
      rw [hf (a, b) (by simp)]
      rw [ih t2 (by simpa using h) (fun p hp => hf p (by simp [hp]))]

/-- Claim C2: for a cell with positive absorption whose quartic solve takes
the generic branch and fails, the cell is flagged bad, its temperature is
reset to the prior pressure over density, the intensity update is skipped
(cons_rad unchanged, zero coupling delta), and the per-cell map leaves all
other cells unaffected. -/
theorem C2_quartic_failure_recovery (P : RadParams) (scratch : ℝ) (c : CellIn)
    (hka : 0 < kA c)
    (h4 : tinyNumber < |coeff4 P c (velAdjusted P c)|)
    (h1 : tinyNumber < |coeff1 P c (velAdjusted P c)|)
    (hfail : FourthPolyRoot
      (coeff4 P c (velAdjusted P c) / coeff1 P c (velAdjusted P c))
      (coeff0 P c (velAdjusted P c) / coeff1 P c (velAdjusted P c)) = none) :
    (cellStep P scratch c).bad = true ∧
    (cellStep P scratch c).tt = c.pgas / c.rho ∧
    (cellStep P scratch c).ir = c.ir ∧
    (∀ n, (cellStep P scratch c).delta n = 0) ∧
    (∀ (cells : List CellIn) (i : ℕ),
      (cells.map (cellStep P scratch))[i]? = (cells[i]?).map (cellStep P scratch)) := by
  have hts : tempSolve P c (velAdjusted P c) = (true, ttMinus c) := by
    unfold tempSolve
    rw [if_pos hka, if_pos ⟨h4, h1⟩, hfail]
  have hcs : cellStep P scratch c =
      { bad := true, tt := ttMinus c, ir := c.ir,
        delta := fun n => radMoments c.angs c.ir n - radMoments c.angs c.ir n } := by
    simp only [cellStep]
    rw [hts]
    simp [intensityUpdate]
  refine ⟨by rw [hcs], by rw [hcs]; rfl, by rw [hcs], ?_, ?_⟩
  · intro n
    rw [hcs]
    simp
  · intro cells i
    simp [List.getElem?_map]

lemma uN_cellW : uN cellW.u angW = -1 := by
  simp [uN, cellW, angW]

lemma eeF_cellW : eeF cellW.u cellW = -4 := by
  simp only [eeF, cellW, angW]
  simp [uN, Real.pi_ne_zero]
  field_simp

lemma velAdjusted_cellW : velAdjusted parW cellW = cellW.u := by
  unfold velAdjusted
  rw [if_pos]
  rw [eeF_cellW]
  simp [egasOf, parW, cellW]
  norm_num

lemma varB_cellW : varB parW cellW cellW.u = -(1/2) := by
  simp only [varB, varD, cellW, angW, parW, kA, kS]
  simp [uN]
  field_simp
  ring

lemma varA_cellW : varA parW cellW cellW.u = -2 := by
  simp only [varA, varD, cellW, angW, parW, kA, kS]
  simp [uN]
  field_simp
  ring

lemma coeff4_cellW : coeff4 parW cellW (velAdjusted parW cellW) = -(1/2) := by
  rw [velAdjusted_cellW, coeff4, varB_cellW]
  simp [kA, cellW, parW]

lemma coeff1_cellW : coeff1 parW cellW (velAdjusted parW cellW) = -1 := by
  rw [velAdjusted_cellW, coeff1, varB_cellW]
  simp [kS, cellW, parW]
  norm_num

lemma coeff0_cellW : coeff0 parW cellW (velAdjusted parW cellW) = -1 := by
  rw [velAdjusted_cellW, coeff0]
  have h1 : coeff1 parW cellW cellW.u = -1 := by
    rw [coeff1, varB_cellW]
    simp [kS, cellW, parW]
    norm_num
  rw [h1, varB_cellW, varA_cellW, eeF_cellW]
  simp [ttMinus, kS, cellW, parW]
  norm_num

/-- Witness for claim C2: the concrete cell is flagged bad and its
intensities survive unchanged. -/
theorem C2_quartic_failure_recovery_witness :
    (cellStep parW 0 cellW).bad = true ∧ (cellStep parW 0 cellW).ir = cellW.ir := by
  have hka : 0 < kA cellW := by norm_num [kA, cellW]
  have h4 : tinyNumber < |coeff4 parW cellW (velAdjusted parW cellW)| := by
    rw [coeff4_cellW, abs_neg, abs_of_pos (by norm_num : (0:ℝ) < 1/2)]
    norm_num [tinyNumber]
  have h1 : tinyNumber < |coeff1 parW cellW (velAdjusted parW cellW)| := by
    rw [coeff1_cellW, abs_neg, abs_one]
    norm_num [tinyNumber]
  have hfail : FourthPolyRoot
      (coeff4 parW cellW (velAdjusted parW cellW) / coeff1 parW cellW (velAdjusted parW cellW))
      (coeff0 parW cellW (velAdjusted parW cellW) / coeff1 parW cellW (velAdjusted parW cellW))
      = none := by
    rw [coeff4_cellW, coeff1_cellW, coeff0_cellW]
    have e1 : -(1/2) / (-1 : ℝ) = 1/2 := by norm_num
    have e2 : (-1 : ℝ) / (-1) = 1 := by norm_num
    rw [e1, e2]
    have hd : quarticDelta1 (1/2) 1 < 0 := by norm_num [quarticDelta1]
    simp only [FourthPolyRoot, if_pos hd]
  obtain ⟨hb, _, hir, _, _⟩ :=
    C2_quartic_failure_recovery parW 0 cellW hka h4 h1 hfail
  exact ⟨hb, hir⟩

/-- Claim C3 (amended): for a cell with zero absorption and scattering
coefficients whose conserved intensities are all non-positive (the sign
convention of the stored field), the intensity update leaves every
cons_rad entry exactly unchanged and the coupling delta applied to the
fluid conserved variables is exactly zero. -/
theorem C3_zero_opacity_amended (P : RadParams) (scratch : ℝ) (c : CellIn)
    (hlen : c.angs.length = c.ir.length)
    (hka : kA c = 0) (hks : kS c = 0)
    (hsign : ∀ x ∈ c.ir, x ≤ 0) :
    (cellStep P scratch c).ir = c.ir ∧ (∀ n, (cellStep P scratch c).delta n = 0) := by
  have hts : tempSolve P c (velAdjusted P c) = (false, ttMinus c) := by
    unfold tempSolve
    rw [if_neg (by rw [hka]; exact lt_irrefl 0)]
  have hiu : ∀ (tt eefp : ℝ), intensityUpdate P c (velAdjusted P c) false tt eefp = c.ir := by
    intro tt eefp
    unfold intensityUpdate
    simp only [Bool.false_eq_true, if_false]
    apply map_zip_eq_right _ _ _ hlen
    intro p hp
    have hx : p.2 ≤ 0 := hsign p.2 (List.of_mem_zip hp).2
    rw [hka, hks]
    simp
    exact hx
  constructor
  · simp [cellStep, hts, hiu]
  · intro n
    simp [cellStep, hts, hiu]

lemma eeF_cellPos : eeF cellPos.u cellPos = 1 := by
  simp [eeF, uN, cellPos, angU]

lemma velAdjusted_cellPos : velAdjusted parW cellPos = cellPos.u := by
  unfold velAdjusted
  rw [if_pos]
  rw [eeF_cellPos]
  norm_num [egasOf, cellPos, parW]

lemma tempSolve_cellPos : tempSolve parW cellPos cellPos.u = (false, 1) := by
  unfold tempSolve
  rw [if_neg (by norm_num [kA, cellPos])]
  norm_num [ttMinus, cellPos]

lemma ir_cellPos : (cellStep parW 0 cellPos).ir = [0] := by
  simp only [cellStep, velAdjusted_cellPos, tempSolve_cellPos]
  simp [intensityUpdate, uN, kA, kS, cellPos, angU, parW]

/-- Counterexample to claim C3 as stated: a zero-opacity cell holding the
positive conserved intensity 1 has that entry clamped to zero by the
min-with-zero of the intensity update, and the fluid coupling delta on the
energy component is 1, not 0. -/
theorem C3_zero_opacity_counterexample :
    (cellStep parW 0 cellPos).ir ≠ cellPos.ir ∧
    (cellStep parW 0 cellPos).delta 0 ≠ 0 := by
  constructor
  · rw [ir_cellPos]
    simp [cellPos]
  · have hd : (cellStep parW 0 cellPos).delta 0 =
        radMoments cellPos.angs cellPos.ir 0 - radMoments cellPos.angs (cellStep parW 0 cellPos).ir 0 := by
      simp only [cellStep]
    rw [hd, ir_cellPos]
    norm_num [radMoments, cellPos, angU]

/-- Witness for the amended claim C3 at a concrete zero-opacity cell. -/
theorem C3_zero_opacity_witness :
    (cellStep parW 0 cellNeg).ir = cellNeg.ir ∧
    (∀ n, (cellStep parW 0 cellNeg).delta n = 0) :=
  C3_zero_opacity_amended parW 0 cellNeg rfl
    (by norm_num [kA, cellNeg])
    (by norm_num [kS, cellNeg])
    (by
      intro x hx
      simp only [cellNeg, List.mem_singleton] at hx
      rw [hx]
      norm_num)

/-- Claim C6: in the velocity-limiting sub-step the capped vrad_sq variable
never exceeds v_sq_max and records the exact squared magnitude of the capped
components, every relaxation fraction is clamped into the unit interval, and
the updated 4-velocity has its time component recomputed as the square root
of 1 plus the squared spatial components, restoring the unit-norm
constraint. -/
theorem C6_velocity_limit_invariants (P : RadParams) (c : CellIn) (v1 v2 v3 x : ℝ)
    (hmax : 0 ≤ P.vSqMax) :
    (vradCap P v1 v2 v3).2.2.2 ≤ P.vSqMax ∧
    ((vradCap P v1 v2 v3).1^2 + (vradCap P v1 v2 v3).2.1^2 + (vradCap P v1 v2 v3).2.2.1^2
      = (vradCap P v1 v2 v3).2.2.2) ∧
    (0 ≤ clamp01 x ∧ clamp01 x ≤ 1) ∧
    velLimit P c 0 = Real.sqrt (1 + velLimit P c 1 ^ 2 + velLimit P c 2 ^ 2 + velLimit P c 3 ^ 2) ∧
    velLimit P c 0 ^ 2 = 1 + velLimit P c 1 ^ 2 + velLimit P c 2 ^ 2 + velLimit P c 3 ^ 2 := by
  have hcv : velLimit P c 1 = (velLimitSpatial P c).1 ∧
      velLimit P c 2 = (velLimitSpatial P c).2.1 ∧
      velLimit P c 3 = (velLimitSpatial P c).2.2 ∧
      velLimit P c 0 = Real.sqrt (1 + (velLimitSpatial P c).1^2
        + (velLimitSpatial P c).2.1^2 + (velLimitSpatial P c).2.2^2) := by
    refine ⟨?_, ?_, ?_, ?_⟩ <;> simp [velLimit]
  obtain ⟨e1, e2, e3, e0⟩ := hcv
  refine ⟨?_, ?_, ⟨?_, ?_⟩, ?_, ?_⟩
  · unfold vradCap
    split_ifs with h
    · simp
    · simpa using le_of_not_lt h
  · unfold vradCap
    split_ifs with h
    · have hq : 0 < v1^2 + v2^2 + v3^2 := lt_of_le_of_lt hmax h
      have hsq : Real.sqrt (P.vSqMax / (v1^2 + v2^2 + v3^2))^2
          = P.vSqMax / (v1^2 + v2^2 + v3^2) :=
        Real.sq_sqrt (div_nonneg hmax (le_of_lt hq))
      simp only
      have hr : (Real.sqrt (P.vSqMax / (v1^2 + v2^2 + v3^2)) * v1)^2
          + (Real.sqrt (P.vSqMax / (v1^2 + v2^2 + v3^2)) * v2)^2
          + (Real.sqrt (P.vSqMax / (v1^2 + v2^2 + v3^2)) * v3)^2
          = Real.sqrt (P.vSqMax / (v1^2 + v2^2 + v3^2))^2 * (v1^2 + v2^2 + v3^2) := by
        ring
      rw [hr, hsq, div_mul_cancel₀ _ (ne_of_gt hq)]
    · simp
  · unfold clamp01
    exact le_min (le_max_right x 0) zero_le_one
  · unfold clamp01
    exact min_le_right _ _
  · rw [e0, e1, e2, e3]
  · rw [e0, e1, e2, e3]
    exact Real.sq_sqrt (by positivity)

/-- Witness for claim C6 at concrete inputs: a raw radiation velocity of
squared magnitude 4 is capped to the maximum 1, and the fraction 5 is
clamped into the unit interval. -/
theorem C6_velocity_limit_invariants_witness :
    (vradCap parW 2 0 0).2.2.2 ≤ parW.vSqMax ∧ (0 ≤ clamp01 5 ∧ clamp01 5 ≤ 1) := by
  have h := C6_velocity_limit_invariants parW cellW 2 0 0 5 (by norm_num [parW])
  exact ⟨h.1, h.2.2.1⟩

/-- Claim C7: whenever the fluid momentum accelerated to the radiation frame
equals the current fluid momentum, the explicit equality guard sets the
relaxation fraction to zero, so the division by their difference is never
evaluated with a zero denominator. -/
theorem C7_stepfrac_guard (dm mrad mg : ℝ) (h : mrad = mg) :
    stepFrac dm mrad mg = 0 := by
  rw [stepFrac, if_pos h]

/-- Witness for claim C7 at concrete inputs. -/
theorem C7_stepfrac_guard_witness : stepFrac 1 2 2 = 0 :=
  C7_stepfrac_guard 1 2 2 rfl

/-- Claim C4 (amended): whenever the Gauss-Jordan transform computed by the
correction is an exact inverse on the zeroth-moment row, the solid angles
and geometry factors are nonzero, and the final min-with-zero clamp leaves
every redistributed value unchanged, the zeroth angular moment of the
corrected intensities equals the zeroth moment before the correction. -/
theorem C4_edd_zeroth_moment_amended (u : Fin 4 → ℝ) (angs : Fin 4 → Ang)
    (cr : Fin 4 → ℝ)
    (hinv : ∀ m : Fin 4, ∑ n : Fin 4,
      iiToMoment u angs 0 n * (gjInv (iiToMoment u angs)).2 n m
      = if m = 0 then 1 else 0)
    (hsa : ∀ nii : Fin 4, (angs nii).sa ≠ 0)
    (hn0 : ∀ nii : Fin 4, (angs nii).n0nmu 0 ≠ 0)
    (hnoclamp : ∀ nii : Fin 4,
      (∑ nmom : Fin 4, (gjInv (iiToMoment u angs)).2 nii nmom
        * eddMoments (iiToMoment u angs) angs cr nmom)
      * (angs nii).n0nmu 0 / (angs nii).sa ≤ 0) :
    eddMoments (iiToMoment u angs) angs (eddFix u angs cr) 0
      = eddMoments (iiToMoment u angs) angs cr 0 := by
  have hfix : ∀ nii : Fin 4, eddFix u angs cr nii
      = (∑ nmom : Fin 4, (gjInv (iiToMoment u angs)).2 nii nmom
          * eddMoments (iiToMoment u angs) angs cr nmom)
        * (angs nii).n0nmu 0 / (angs nii).sa := by
    intro nii
    exact min_eq_left (hnoclamp nii)
  have hterm : ∀ nii : Fin 4,
      iiToMoment u angs 0 nii * eddFix u angs cr nii / (angs nii).n0nmu 0 * (angs nii).sa
      = iiToMoment u angs 0 nii
        * (∑ nmom : Fin 4, (gjInv (iiToMoment u angs)).2 nii nmom
            * eddMoments (iiToMoment u angs) angs cr nmom) := by
    intro nii
    rw [hfix nii]
    field_simp [hsa nii, hn0 nii]
    ring
  have hexp : eddMoments (iiToMoment u angs) angs (eddFix u angs cr) 0
      = ∑ nii : Fin 4, iiToMoment u angs 0 nii
          * (∑ nmom : Fin 4, (gjInv (iiToMoment u angs)).2 nii nmom
              * eddMoments (iiToMoment u angs) angs cr nmom) := by
    unfold eddMoments
    rw [if_neg (by decide : ¬ (0 : Fin 4) = 3)]
    exact Finset.sum_congr rfl (fun nii _ => hterm nii)
  rw [hexp]
  have h0 := hinv 0
  have h1 := hinv 1
  have h2 := hinv 2
  have h3 := hinv 3
  simp only [Fin.sum_univ_four] at h0 h1 h2 h3 ⊢
  simp only [if_pos rfl, if_neg (by decide : ¬ (1 : Fin 4) = 0),
    if_neg (by decide : ¬ (2 : Fin 4) = 0), if_neg (by decide : ¬ (3 : Fin 4) = 0),
    if_true] at h0 h1 h2 h3
  linear_combination (eddMoments (iiToMoment u angs) angs cr 0) * h0
    + (eddMoments (iiToMoment u angs) angs cr 1) * h1
    + (eddMoments (iiToMoment u angs) angs cr 2) * h2
    + (eddMoments (iiToMoment u angs) angs cr 3) * h3

lemma iiToMoment_eval : iiToMoment uE angsE = matE := by
  funext a b
  fin_cases a <;> fin_cases b <;>
    norm_num +decide [iiToMoment, nfluid, tetToFluid, matE, angsE, angE, uE, Fin.sum_univ_four]

lemma gjStep1 : gjPivot (matE, idMat4) 0 = (matE1A, matE1B) := by
  have h1 : (gjPivot (matE, idMat4) 0).1 = matE1A := by
    funext a b
    fin_cases a <;> fin_cases b <;>
      norm_num +decide [gjPivot, idMat4, matE, matE1A]
  have h2 : (gjPivot (matE, idMat4) 0).2 = matE1B := by
    funext a b
    fin_cases a <;> fin_cases b <;>
      norm_num +decide [gjPivot, idMat4, matE, matE1B]
  rw [Prod.ext_iff]
  exact ⟨h1, h2⟩

lemma gjStep2 : gjPivot (matE1A, matE1B) 1 = (matE2A, matE2B) := by
  have h1 : (gjPivot (matE1A, matE1B) 1).1 = matE2A := by
    funext a b
    fin_cases a <;> fin_cases b <;>
      norm_num +decide [gjPivot, matE1A, matE1B, matE2A]
  have h2 : (gjPivot (matE1A, matE1B) 1).2 = matE2B := by
    funext a b
    fin_cases a <;> fin_cases b <;>
      norm_num +decide [gjPivot, matE1A, matE1B, matE2B]
  rw [Prod.ext_iff]
  exact ⟨h1, h2⟩

lemma gjStep3 : gjPivot (matE2A, matE2B) 2 = (matE3A, matE3B) := by
  have h1 : (gjPivot (matE2A, matE2B) 2).1 = matE3A := by
    funext a b
    fin_cases a <;> fin_cases b <;>
      norm_num +decide [gjPivot, matE2A, matE2B, matE3A]
  have h2 : (gjPivot (matE2A, matE2B) 2).2 = matE3B := by
    funext a b
    fin_cases a <;> fin_cases b <;>
      norm_num +decide [gjPivot, matE2A, matE2B, matE3B]
  rw [Prod.ext_iff]
  exact ⟨h1, h2⟩

lemma gjStep4 : gjPivot (matE3A, matE3B) 3 = (matE4A, matEinv) := by
  have h1 : (gjPivot (matE3A, matE3B) 3).1 = matE4A := by
    funext a b
    fin_cases a <;> fin_cases b <;>
      norm_num +decide [gjPivot, matE3A, matE3B, matE4A]
  have h2 : (gjPivot (matE3A, matE3B) 3).2 = matEinv := by
    funext a b
    fin_cases a <;> fin_cases b <;>
      norm_num +decide [gjPivot, matE3A, matE3B, matEinv]
  rw [Prod.ext_iff]
  exact ⟨h1, h2⟩

lemma gjInv_matE : (gjInv matE).2 = matEinv := by
  unfold gjInv
  rw [gjStep1, gjStep2, gjStep3, gjStep4]

lemma eddMoments_crW4 : ∀ m : Fin 4,
    eddMoments matE angsE crW4 m = (![-4, -4, -2, 0] : Fin 4 → ℝ) m := by
  intro m
  fin_cases m <;>
    norm_num +decide [eddMoments, Fin.sum_univ_four, matE, angsE, angE, crW4]

lemma eddMoments_crC4 : ∀ m : Fin 4,
    eddMoments matE angsE crC4 m = (![-1, -1, -1, 0] : Fin 4 → ℝ) m := by
  intro m
  fin_cases m <;>
    norm_num +decide [eddMoments, Fin.sum_univ_four, matE, angsE, angE, crC4]

lemma eddFix_crC4 : ∀ nii : Fin 4,
    eddFix uE angsE crC4 nii = (![0, -1, 0, -1] : Fin 4 → ℝ) nii := by
  intro nii
  unfold eddFix
  rw [iiToMoment_eval, gjInv_matE]
  simp only [eddMoments_crC4]
  fin_cases nii <;>
    norm_num +decide [Fin.sum_univ_four, matEinv, angsE, angE]

/-- Counterexample to claim C4 as stated: on the concrete slice holding the
intensities (0, 0, -1, 0) the redistributed value of the first angle is
positive, the min-with-zero clamp truncates it, and the zeroth moment drops
from -1 to -2 across the correction. -/
theorem C4_edd_zeroth_moment_counterexample :
    eddMoments (iiToMoment uE angsE) angsE (eddFix uE angsE crC4) 0
      ≠ eddMoments (iiToMoment uE angsE) angsE crC4 0 := by
  rw [iiToMoment_eval]
  have hL : eddMoments matE angsE (eddFix uE angsE crC4) 0 = -2 := by
    unfold eddMoments
    rw [if_neg (by decide : ¬ (0 : Fin 4) = 3)]
    simp only [Fin.sum_univ_four, eddFix_crC4]
    norm_num +decide [matE, angsE, angE]
  have hR : eddMoments matE angsE crC4 0 = -1 := by
    have := eddMoments_crC4 0
    simpa using this
  rw [hL, hR]
  norm_num

/-- Witness for the amended claim C4: on the concrete slice holding the
intensities (-1, -1, -1, -1) the computed transform is an exact inverse,
the clamp is inactive, and the zeroth moment is conserved. -/
theorem C4_edd_zeroth_moment_witness :
    eddMoments (iiToMoment uE angsE) angsE (eddFix uE angsE crW4) 0
      = eddMoments (iiToMoment uE angsE) angsE crW4 0 := by
  apply C4_edd_zeroth_moment_amended
  · intro m
    rw [iiToMoment_eval, gjInv_matE]
    fin_cases m <;>
      norm_num +decide [Fin.sum_univ_four, matE, matEinv]
  · intro nii
    fin_cases nii <;> norm_num [angsE, angE]
  · intro nii
    fin_cases nii <;> norm_num [angsE, angE]
  · intro nii
    rw [iiToMoment_eval, gjInv_matE]
    simp only [eddMoments_crW4]
    fin_cases nii <;>
      norm_num +decide [Fin.sum_univ_four, matEinv, angsE, angE]

/-- Claim C5: every value written into cons_rad by the per-angle intensity
update of a non-bad cell, and every value written by the final loop of the
Eddington correction, is clamped by min with zero, hence non-positive. -/
theorem C5_conserved_intensity_nonpositive :
    (∀ (P : RadParams) (c : CellIn) (u : Fin 4 → ℝ) (tt eefp : ℝ),
      ∀ x ∈ intensityUpdate P c u false tt eefp, x ≤ 0) ∧
    (∀ (u : Fin 4 → ℝ) (angs : Fin 4 → Ang) (cr : Fin 4 → ℝ) (nii : Fin 4),
      eddFix u angs cr nii ≤ 0) := by
  constructor
  · intro P c u tt eefp x hx
    unfold intensityUpdate at hx
    simp only [Bool.false_eq_true, if_false, List.mem_map] at hx
    obtain ⟨p, _, hp⟩ := hx
    rw [← hp]
    exact min_le_right _ _
  · intro u angs cr nii
    unfold eddFix
    exact min_le_right _ _

/-- Witness for claim C5: the concrete written values are non-positive. -/
theorem C5_conserved_intensity_nonpositive_witness :
    (-5 : ℝ) ≤ 0 ∧ eddFix uE angsE crW4 0 ≤ 0 := by
  constructor
  · apply C5_conserved_intensity_nonpositive.1 parW cellm5 cellm5.u 1 1
    simp [intensityUpdate, uN, kA, kS, cellm5, angU, parW]
  · exact C5_conserved_intensity_nonpositive.2 uE angsE crW4 0

/-- Claim C8: FluxDivergence updates the intensity additively by minus dt
times the face-area weighted flux differences over the cell volume, and
dispatches on the dimensionality: all three directions contribute when
nx3 exceeds 1, only x1 and x2 when nx3 is 1 and nx2 exceeds 1, and only x1
otherwise; dropped dimensions drop their face-flux terms. -/
theorem C8_flux_divergence_dispatch (g : TransGrid) (geo : TransGeom) (dt : ℝ)
    (f1 f2 f3 ir : ℕ → ℕ → ℕ → ℕ → ℝ) (k j i n : ℕ) :
    (1 < g.nx3 →
      (g.ks ≤ k ∧ k ≤ g.ke ∧ g.js ≤ j ∧ j ≤ g.je ∧ g.is ≤ i ∧ i ≤ g.ie ∧ n < g.nfa) →
      fluxDivUpdate g geo dt f1 f2 f3 ir k j i n
        = ir k j i n - dt * (geo.x1area k j (i+1) * f1 k j (i+1) n
            - geo.x1area k j i * f1 k j i n
            + geo.x2area k (j+1) i * f2 k (j+1) i n
            - geo.x2area k j i * f2 k j i n
            + geo.x3area (k+1) j i * f3 (k+1) j i n
            - geo.x3area k j i * f3 k j i n) / geo.vol k j i) ∧
    (g.nx3 ≤ 1 → 1 < g.nx2 →
      (k = g.ks ∧ g.js ≤ j ∧ j ≤ g.je ∧ g.is ≤ i ∧ i ≤ g.ie ∧ n < g.nfa) →
      fluxDivUpdate g geo dt f1 f2 f3 ir k j i n
        = ir k j i n - dt * (geo.x1area k j (i+1) * f1 k j (i+1) n
            - geo.x1area k j i * f1 k j i n
            + geo.x2area k (j+1) i * f2 k (j+1) i n
            - geo.x2area k j i * f2 k j i n) / geo.vol k j i) ∧
    (g.nx3 ≤ 1 → g.nx2 ≤ 1 →
      (k = g.ks ∧ j = g.js ∧ g.is ≤ i ∧ i ≤ g.ie ∧ n < g.nfa) →
      fluxDivUpdate g geo dt f1 f2 f3 ir k j i n
        = ir k j i n - dt * (geo.x1area k j (i+1) * f1 k j (i+1) n
            - geo.x1area k j i * f1 k j i n) / geo.vol k j i) := by
  refine ⟨?_, ?_, ?_⟩
  · intro h3 hr
    unfold fluxDivUpdate
    rw [if_pos h3, if_pos hr]
  · intro h3 h2 hr
    unfold fluxDivUpdate
    rw [if_neg (by omega), if_pos h2, if_pos hr]
  · intro h3 h2 hr
    unfold fluxDivUpdate
    rw [if_neg (by omega), if_neg (by omega), if_pos hr]

/-- Witness for claim C8: on the one-dimensional grid with unit areas and
volume, zero intensity and the x1 flux equal to the face index, the update
writes -1 into the cell. -/
theorem C8_flux_divergence_dispatch_witness :
    fluxDivUpdate gridW geomW 1 (fun _ _ i _ => (i : ℝ)) (fun _ _ _ _ => 0)
      (fun _ _ _ _ => 0) (fun _ _ _ _ => 0) 0 0 1 0 = -1 := by
  have h := (C8_flux_divergence_dispatch gridW geomW 1 (fun _ _ i _ => (i : ℝ))
    (fun _ _ _ _ => 0) (fun _ _ _ _ => 0) (fun _ _ _ _ => 0) 0 0 1 0).2.2
    (by norm_num [gridW]) (by norm_num [gridW])
    (by refine ⟨rfl, rfl, ?_, ?_, ?_⟩ <;> norm_num [gridW])
  rw [h]
  norm_num [geomW]

/-- Claim C10: CalculateFluxes writes only the face-flux arrays and the
scratch buffer; the global intensity field is identical before and after
the call. -/
theorem C10_calculate_fluxes_reads_ir (g : TransGrid) (co : TransCoords)
    (rc : ℝ) (mu : Fin 3 → ℕ → ℕ → ℕ → ℕ → ℝ) (step : ℕ) (s : FluxState) :
    (calculateFluxes g co rc mu step s).ir = s.ir := rfl

/-- Claim C9 (spec-modelled flux kernels): for a spatially uniform intensity
field with spatially uniform direction cosines, on a consistent grid with
translation-invariant face areas, one CalculateFluxes plus FluxDivergence
substep leaves the intensity field exactly unchanged at every cell,
frequency and angle. -/
theorem C9_uniform_field_fixed_point
    (g : TransGrid) (co : TransCoords) (geo : TransGeom) (rc meshDt : ℝ)
    (mu : Fin 3 → ℕ → ℕ → ℕ → ℕ → ℝ) (step : ℕ) (s : FluxState)
    (F : ℕ → ℝ) (MU : Fin 3 → ℕ → ℝ)
    (hir : ∀ k j i n, s.ir k j i n = F n)
    (hmu : ∀ d k j i n, mu d k j i n = MU d n)
    (hx1 : ∀ i, 1 ≤ i → co.x1v (i-1) ≠ co.x1v i)
    (hx2 : ∀ j, 1 ≤ j → co.x2v (j-1) ≠ co.x2v j)
    (hx3 : ∀ k, 1 ≤ k → co.x3v (k-1) ≠ co.x3v k)
    (hA1 : ∀ k j i, geo.x1area k j (i+1) = geo.x1area k j i)
    (hA2 : ∀ k j i, geo.x2area k (j+1) i = geo.x2area k j i)
    (hA3 : ∀ k j i, geo.x3area (k+1) j i = geo.x3area k j i)
    (his : 1 ≤ g.is)
    (hjs : 1 < g.nx2 → 1 ≤ g.js)
    (hks : 1 < g.nx3 → 1 ≤ g.ks)
    (h32 : 1 < g.nx3 → 1 < g.nx2)
    (hke : g.ks ≤ g.ke) (hje : g.js ≤ g.je) :
    ∀ k j i n, fluxDivUpdate g geo (substepDt step meshDt)
      (calculateFluxes g co rc mu step s).f1
      (calculateFluxes g co rc mu step s).f2
      (calculateFluxes g co rc mu step s).f3 s.ir k j i n = s.ir k j i n := by
  have hv1 : ∀ k j i n, 1 ≤ i → faceVel1 co rc mu k j i n = rc * MU 0 n := by
    intro k j i n hi
    unfold faceVel1
    rw [hmu 0 k j (i-1) n, hmu 0 k j i n]
    have hden : co.x1v i - co.x1v (i-1) ≠ 0 := by
      intro h
      exact hx1 i hi (by linarith)
    field_simp [hden]
    ring
  have hv2 : ∀ k j i n, 1 ≤ j → faceVel2 co rc mu k j i n = rc * MU 1 n := by
    intro k j i n hj
    unfold faceVel2
    rw [hmu 1 k (j-1) i n, hmu 1 k j i n]
    have hden : co.x2v j - co.x2v (j-1) ≠ 0 := by
      intro h
      exact hx2 j hj (by linarith)
    field_simp [hden]
    ring
  have hv3 : ∀ k j i n, 1 ≤ k → faceVel3 co rc mu k j i n = rc * MU 2 n := by
    intro k j i n hk
    unfold faceVel3
    rw [hmu 2 (k-1) j i n, hmu 2 k j i n]
    have hden : co.x3v k - co.x3v (k-1) ≠ 0 := by
      intro h
      exact hx3 k hk (by linarith)
    field_simp [hden]
    ring
  have hflux1 : ∀ k j i n, 1 ≤ i →
      fluxKernelX1 step s.ir (faceVel1 co rc mu k j i n) k j i n
        = rc * MU 0 n * F n := by
    intro k j i n hi
    rw [hv1 k j i n hi]
    by_cases hstep : step = 1
    · simp only [fluxKernelX1, if_pos hstep, firstOrderUpwind, hir]
      split_ifs <;> ring
    · simp only [fluxKernelX1, if_neg hstep, secondOrderUpwind, limitedSlope, hir,
        sub_self, mul_zero, zero_mul, lt_irrefl, if_false, zero_div, add_zero, sub_zero]
      split_ifs <;> ring
  have hflux2 : ∀ k j i n, 1 ≤ j →
      fluxKernelX2 step s.ir (faceVel2 co rc mu k j i n) k j i n
        = rc * MU 1 n * F n := by
    intro k j i n hj
    rw [hv2 k j i n hj]
    by_cases hstep : step = 1
    · simp only [fluxKernelX2, if_pos hstep, firstOrderUpwind, hir]
      split_ifs <;> ring
    · simp only [fluxKernelX2, if_neg hstep, secondOrderUpwind, limitedSlope, hir,
        sub_self, mul_zero, zero_mul, lt_irrefl, if_false, zero_div, add_zero, sub_zero]
      split_ifs <;> ring
  have hflux3 : ∀ k j i n, 1 ≤ k →
      fluxKernelX3 step s.ir (faceVel3 co rc mu k j i n) k j i n
        = rc * MU 2 n * F n := by
    intro k j i n hk
    rw [hv3 k j i n hk]
    by_cases hstep : step = 1
    · simp only [fluxKernelX3, if_pos hstep, firstOrderUpwind, hir]
      split_ifs <;> ring
    · simp only [fluxKernelX3, if_neg hstep, secondOrderUpwind, limitedSlope, hir,
        sub_self, mul_zero, zero_mul, lt_irrefl, if_false, zero_div, add_zero, sub_zero]
      split_ifs <;> ring
  have hf1val : ∀ k j i n,
      (g.ks ≤ k ∧ k ≤ g.ke ∧ g.js ≤ j ∧ j ≤ g.je ∧ g.is ≤ i ∧ i ≤ g.ie + 1 ∧ n < g.nfa) →
      (calculateFluxes g co rc mu step s).f1 k j i n = rc * MU 0 n * F n := by
    intro k j i n hc
    show calcFluxX1 g co rc mu step s.ir s.f1 k j i n = _
    unfold calcFluxX1
    rw [if_pos hc]
    exact hflux1 k j i n (by omega)
  have hf2val : 1 < g.nx2 → ∀ k j i n,
      (g.ks ≤ k ∧ k ≤ g.ke ∧ g.js ≤ j ∧ j ≤ g.je + 1 ∧ g.is ≤ i ∧ i ≤ g.ie ∧ n < g.nfa) →
      (calculateFluxes g co rc mu step s).f2 k j i n = rc * MU 1 n * F n := by
    intro h2 k j i n hc
    show (if 1 < g.nx2 then calcFluxX2 g co rc mu step s.ir s.f2 else s.f2) k j i n = _
    rw [if_pos h2]
    unfold calcFluxX2
    rw [if_pos hc]
    refine hflux2 k j i n ?_
    have := hjs h2
    omega
  have hf3val : 1 < g.nx3 → ∀ k j i n,
      (g.ks ≤ k ∧ k ≤ g.ke + 1 ∧ g.js ≤ j ∧ j ≤ g.je ∧ g.is ≤ i ∧ i ≤ g.ie ∧ n < g.nfa) →
      (calculateFluxes g co rc mu step s).f3 k j i n = rc * MU 2 n * F n := by
    intro h3 k j i n hc
    show (if 1 < g.nx3 then calcFluxX3 g co rc mu step s.ir s.f3 else s.f3) k j i n = _
    rw [if_pos h3]
    unfold calcFluxX3
    rw [if_pos hc]
    refine hflux3 k j i n ?_
    have := hks h3
    omega
  intro k j i n
  unfold fluxDivUpdate
  split_ifs with h3 hr1 h2 hr2 hr3
  · obtain ⟨c1, c2, c3, c4, c5, c6, c7⟩ := hr1
    rw [hf1val k j (i+1) n ⟨c1, c2, c3, c4, by omega, by omega, c7⟩,
      hf1val k j i n ⟨c1, c2, c3, c4, c5, by omega, c7⟩,
      hf2val (h32 h3) k (j+1) i n ⟨c1, c2, by omega, by omega, c5, c6, c7⟩,
      hf2val (h32 h3) k j i n ⟨c1, c2, c3, by omega, c5, c6, c7⟩,
      hf3val h3 (k+1) j i n ⟨by omega, by omega, c3, c4, c5, c6, c7⟩,
      hf3val h3 k j i n ⟨c1, by omega, c3, c4, c5, c6, c7⟩,
      hA1, hA2, hA3]
    ring
  · rfl
  · obtain ⟨c1, c2, c3, c4, c5, c6⟩ := hr2
    subst c1
    rw [hf1val g.ks j (i+1) n ⟨le_refl _, hke, c2, c3, by omega, by omega, c6⟩,
      hf1val g.ks j i n ⟨le_refl _, hke, c2, c3, c4, by omega, c6⟩,
      hf2val h2 g.ks (j+1) i n ⟨le_refl _, hke, by omega, by omega, c4, c5, c6⟩,
      hf2val h2 g.ks j i n ⟨le_refl _, hke, c2, by omega, c4, c5, c6⟩,
      hA1, hA2]
    ring
  · rfl
  · obtain ⟨c1, c2, c3, c4, c5⟩ := hr3
    subst c1
    subst c2
    rw [hf1val g.ks g.js (i+1) n ⟨le_refl _, hke, le_refl _, hje, by omega, by omega, c5⟩,
      hf1val g.ks g.js i n ⟨le_refl _, hke, le_refl _, hje, c3, by omega, c5⟩,
      hA1]
    ring
  · rfl

lemma coordsW_sep : ∀ i : ℕ, 1 ≤ i → ((i - 1 : ℕ) : ℝ) ≠ (i : ℝ) := by
  intro i hi h
  have h2 : i - 1 < i := by omega
  have h3 : ((i - 1 : ℕ) : ℝ) < (i : ℝ) := by exact_mod_cast h2
  linarith

/-- Witness for claim C9: on the one-dimensional one-cell grid with uniform
intensity 5 and uniform cosines, the predictor substep leaves the value 5
unchanged. -/
theorem C9_uniform_field_fixed_point_witness :
    fluxDivUpdate gridW geomW (substepDt 1 1)
      (calculateFluxes gridW coordsW 1 (fun _ _ _ _ _ => 1) 1 stateW).f1
      (calculateFluxes gridW coordsW 1 (fun _ _ _ _ _ => 1) 1 stateW).f2
      (calculateFluxes gridW coordsW 1 (fun _ _ _ _ _ => 1) 1 stateW).f3
      stateW.ir 0 0 1 0 = 5 := by
  have h := C9_uniform_field_fixed_point gridW coordsW geomW 1 1
    (fun _ _ _ _ _ => 1) 1 stateW (fun _ => 5) (fun _ _ => 1)
    (fun _ _ _ _ => rfl) (fun _ _ _ _ _ => rfl)
    coordsW_sep coordsW_sep coordsW_sep
    (fun _ _ _ => rfl) (fun _ _ _ => rfl) (fun _ _ _ => rfl)
    (le_refl 1) (by intro h; norm_num [gridW] at h) (by intro h; norm_num [gridW] at h)
    (by intro h; norm_num [gridW] at h) (le_refl 0) (le_refl 0)
    0 0 1 0
  rw [h]
  rfl
